import Mathlib

/-!
Verification of the device-management and GPU-upload layer of a Vulkan
renderer. The definitions below are shallow embeddings of the repository's
C++ functions: 32-bit unsigned integers become `Nat` with explicit
`% 2 ^ 32` where wrap-around can occur, driver calls become explicit
parameters describing their outcome, and thrown exceptions become
`Except`/`Option` results.
-/

namespace VkRenderer

/-! ## Mip level computation (vkimage.cpp)

The fallback leading-zero count `countl_zero_` and
`compute_mip_level_count` are embedded directly from the source. The C++
works on `std::uint32_t`; each left shift is reduced `% 2 ^ 32` to mirror
the 32-bit wrap-around (under the preconditions established by the masks
the shifts never actually wrap).
-/

/-- One conditional step of `countl_zero_`: the source lines of the form
`if( !(aX & mask) ) (res += s), (aX <<= s);` acting on the pair
`(res, aX)`. -/
def clzStep (mask shift : Nat) (p : Nat × Nat) : Nat × Nat :=
  if p.2 &&& mask = 0 then (p.1 + shift, (p.2 <<< shift) % 2 ^ 32) else p

/-- The repository's fallback for `std::countl_zero` on `std::uint32_t`. -/
def countl_zero_ (aX : Nat) : Nat :=
  if aX = 0 then 32
  else
    let p1 := clzStep 0xffff0000 16 (0, aX)
    let p2 := clzStep 0xff000000 8 p1
    let p3 := clzStep 0xf0000000 4 p2
    let p4 := clzStep 0xc0000000 2 p3
    if p4.2 &&& 0x80000000 = 0 then p4.1 + 1 else p4.1

/-- `compute_mip_level_count`: `32 - countl_zero_(width | height)`. -/
def compute_mip_level_count (aWidth aHeight : Nat) : Nat :=
  32 - countl_zero_ (aWidth ||| aHeight)

/-! ### Arithmetic facts about the bit-twiddling -/

theorem two_pow_le_of_testBit (x i : Nat) (h : x.testBit i = true) :
    2 ^ i ≤ x := by
  rcases Nat.lt_or_ge x (2 ^ i) with hlt | hge
  · exfalso
    rw [Nat.testBit_to_div_mod, Nat.div_eq_of_lt hlt] at h
    simp at h
  · exact hge

theorem testBit_log2_self (x : Nat) (hx : x ≠ 0) :
    x.testBit (Nat.log2 x) = true := by
  have h1 : 2 ^ Nat.log2 x ≤ x := (Nat.le_log2 hx).1 le_rfl
  have h2 : x < 2 ^ (Nat.log2 x + 1) := (Nat.log2_lt hx).1 (Nat.lt_succ_self _)
  rw [Nat.testBit_to_div_mod]
  have hdiv : x / 2 ^ Nat.log2 x = 1 := by
    apply Nat.div_eq_of_lt_le
    · simpa using h1
    · simpa [Nat.pow_succ, Nat.mul_comm] using h2
  simp [hdiv]

/-- For `x < 2 ^ 32`, testing against a mask of the top `32 - m` bits is
testing `x < 2 ^ m`. -/
theorem and_highmask_eq_zero_iff (m x : Nat) (hm : m ≤ 32) (hx : x < 2 ^ 32) :
    x &&& ((2 ^ (32 - m) - 1) <<< m) = 0 ↔ x < 2 ^ m := by
  constructor
  · intro h
    by_contra hge
    push_neg at hge
    have hx0 : x ≠ 0 := by
      have : (0 : Nat) < 2 ^ m := Nat.pos_pow_of_pos m (by norm_num)
      omega
    have hk1 : m ≤ Nat.log2 x := (Nat.le_log2 hx0).2 hge
    have hk2 : Nat.log2 x < 32 := (Nat.log2_lt hx0).2 hx
    have hmaskbit : ((2 ^ (32 - m) - 1) <<< m).testBit (Nat.log2 x) = true := by
      rw [Nat.testBit_shiftLeft, Nat.testBit_two_pow_sub_one]
      simp only [ge_iff_le, hk1, decide_True, Bool.true_and, decide_eq_true_eq]
      omega
    have hbit : (x &&& ((2 ^ (32 - m) - 1) <<< m)).testBit (Nat.log2 x) = true := by
      rw [Nat.testBit_and, testBit_log2_self x hx0, hmaskbit]
      rfl
    rw [h, Nat.zero_testBit] at hbit
    exact Bool.false_ne_true hbit
  · intro h
    apply Nat.eq_of_testBit_eq
    intro i
    rw [Nat.testBit_and, Nat.zero_testBit]
    rcases Nat.lt_or_ge i m with hi | hi
    · have : ((2 ^ (32 - m) - 1) <<< m).testBit i = false := by
        rw [Nat.testBit_shiftLeft]
        simp [Nat.not_le.2 hi]
      simp [this]
    · have : x.testBit i = false :=
        Nat.testBit_lt_two_pow (lt_of_lt_of_le h (Nat.pow_le_pow_right (by norm_num) hi))
      simp [this]

theorem log2_mul_two_pow (x s : Nat) (hx : 0 < x) :
    Nat.log2 (x * 2 ^ s) = Nat.log2 x + s := by
  have hx0 : x ≠ 0 := hx.ne'
  have hxs : x * 2 ^ s ≠ 0 := by positivity
  have hlow : 2 ^ (Nat.log2 x + s) ≤ x * 2 ^ s := by
    rw [pow_add]
    exact Nat.mul_le_mul_right _ ((Nat.le_log2 hx0).1 le_rfl)
  have hhigh : x * 2 ^ s < 2 ^ (Nat.log2 x + s + 1) := by
    have h1 : x < 2 ^ (Nat.log2 x + 1) := (Nat.log2_lt hx0).1 (Nat.lt_succ_self _)
    calc x * 2 ^ s < 2 ^ (Nat.log2 x + 1) * 2 ^ s :=
          mul_lt_mul_of_pos_right h1 (Nat.pos_pow_of_pos s (by norm_num))
      _ = 2 ^ (Nat.log2 x + s + 1) := by rw [← pow_add]; ring_nf
  have a := (Nat.le_log2 hxs).2 hlow
  have b := (Nat.log2_lt hxs).2 hhigh
  omega

theorem log2_eq_of_bounds (x k : Nat) (h1 : 2 ^ k ≤ x) (h2 : x < 2 ^ (k + 1)) :
    Nat.log2 x = k := by
  have hx : x ≠ 0 := by
    have : (0 : Nat) < 2 ^ k := Nat.pos_pow_of_pos k (by norm_num)
    omega
  have a := (Nat.le_log2 hx).2 h1
  have b := (Nat.log2_lt hx).2 h2
  omega

/-- What one step of the leading-zero count does, under the interval
invariant carried between the steps. -/
theorem clzStep_spec (mask s r x : Nat)
    (hmask : mask = (2 ^ s - 1) <<< (32 - s))
    (hs : 0 < s) (h2s : 2 * s ≤ 32)
    (hlo : 2 ^ (32 - 2 * s) ≤ x) (hhi : x < 2 ^ 32) :
    2 ^ (32 - s) ≤ (clzStep mask s (r, x)).2 ∧
    (clzStep mask s (r, x)).2 < 2 ^ 32 ∧
    (clzStep mask s (r, x)).1 + Nat.log2 x = r + Nat.log2 (clzStep mask s (r, x)).2 := by
  have hss : 32 - (32 - s) = s := by omega
  have hmask2 : mask = (2 ^ (32 - (32 - s)) - 1) <<< (32 - s) := by
    rw [hss]
    exact hmask
  have hchar : x &&& mask = 0 ↔ x < 2 ^ (32 - s) := by
    rw [hmask2]
    exact and_highmask_eq_zero_iff (32 - s) x (by omega) hhi
  have hxpos : 0 < x := by
    have : (0 : Nat) < 2 ^ (32 - 2 * s) := Nat.pos_pow_of_pos _ (by norm_num)
    omega
  by_cases hc : x &&& mask = 0
  · have hxlt : x < 2 ^ (32 - s) := hchar.1 hc
    have hshift : x <<< s = x * 2 ^ s := Nat.shiftLeft_eq x s
    have hnowrap : x * 2 ^ s < 2 ^ 32 := by
      calc x * 2 ^ s < 2 ^ (32 - s) * 2 ^ s :=
            mul_lt_mul_of_pos_right hxlt (Nat.pos_pow_of_pos s (by norm_num))
        _ = 2 ^ 32 := by rw [← pow_add]; congr 1; omega
    have hstep : clzStep mask s (r, x) = (r + s, x * 2 ^ s) := by
      unfold clzStep
      rw [if_pos hc]
      rw [show ((r, x) : Nat × Nat).2 = x from rfl, hshift, Nat.mod_eq_of_lt hnowrap]
    rw [hstep]
    refine ⟨?_, hnowrap, ?_⟩
    · calc 2 ^ (32 - s) = 2 ^ (32 - 2 * s) * 2 ^ s := by
            rw [← pow_add]; congr 1; omega
        _ ≤ x * 2 ^ s := Nat.mul_le_mul_right _ hlo
    · show r + s + Nat.log2 x = r + Nat.log2 (x * 2 ^ s)
      rw [log2_mul_two_pow x s hxpos]
      omega
  · have hxge : 2 ^ (32 - s) ≤ x := by
      by_contra hlt
      exact hc (hchar.2 (by omega))
    have hstep : clzStep mask s (r, x) = (r, x) := by
      unfold clzStep
      rw [if_neg hc]
    rw [hstep]
    exact ⟨hxge, hhi, rfl⟩

/-- The step lemma restated over an arbitrary pair. -/
theorem clzStep_specP (mask s : Nat) (p : Nat × Nat)
    (hmask : mask = (2 ^ s - 1) <<< (32 - s))
    (hs : 0 < s) (h2s : 2 * s ≤ 32)
    (hlo : 2 ^ (32 - 2 * s) ≤ p.2) (hhi : p.2 < 2 ^ 32) :
    2 ^ (32 - s) ≤ (clzStep mask s p).2 ∧
    (clzStep mask s p).2 < 2 ^ 32 ∧
    (clzStep mask s p).1 + Nat.log2 p.2 = p.1 + Nat.log2 (clzStep mask s p).2 := by
  obtain ⟨r, x⟩ := p
  exact clzStep_spec mask s r x hmask hs h2s hlo hhi

/-- Main correctness of the fallback leading-zero count: on nonzero 32-bit
inputs it returns `31 - floor(log2 x)`. -/
theorem countl_zero_spec (x : Nat) (hx0 : 0 < x) (hx : x < 2 ^ 32) :
    countl_zero_ x = 31 - Nat.log2 x := by
  have hne : ¬ x = 0 := by omega
  have h1 := clzStep_specP 0xffff0000 16 (0, x) (by decide) (by norm_num) (by norm_num)
    (by show (2 : Nat) ^ (32 - 2 * 16) ≤ x; norm_num; omega) (by show x < 2 ^ 32; exact hx)
  obtain ⟨h1lo, h1hi, h1log⟩ := h1
  have h2 := clzStep_specP 0xff000000 8 (clzStep 0xffff0000 16 (0, x)) (by decide)
    (by norm_num) (by norm_num) (by norm_num at h1lo ⊢; exact h1lo) h1hi
  obtain ⟨h2lo, h2hi, h2log⟩ := h2
  have h3 := clzStep_specP 0xf0000000 4
      (clzStep 0xff000000 8 (clzStep 0xffff0000 16 (0, x))) (by decide)
    (by norm_num) (by norm_num) (by norm_num at h2lo ⊢; exact h2lo) h2hi
  obtain ⟨h3lo, h3hi, h3log⟩ := h3
  have h4 := clzStep_specP 0xc0000000 2
      (clzStep 0xf0000000 4 (clzStep 0xff000000 8 (clzStep 0xffff0000 16 (0, x))))
      (by decide)
    (by norm_num) (by norm_num) (by norm_num at h3lo ⊢; exact h3lo) h3hi
  obtain ⟨h4lo, h4hi, h4log⟩ := h4
  dsimp only at h1log h2log h3log h4log
  have hchar := and_highmask_eq_zero_iff 31
    (clzStep 0xc0000000 2
      (clzStep 0xf0000000 4 (clzStep 0xff000000 8 (clzStep 0xffff0000 16 (0, x))))).2
    (by norm_num) h4hi
  rw [show ((2 : Nat) ^ (32 - 31) - 1) <<< 31 = 0x80000000 from by decide] at hchar
  have hlogx : Nat.log2 x < 32 := (Nat.log2_lt hne).2 hx
  unfold countl_zero_
  rw [if_neg hne]
  dsimp only
  by_cases hlt : (clzStep 0xc0000000 2
      (clzStep 0xf0000000 4 (clzStep 0xff000000 8 (clzStep 0xffff0000 16 (0, x))))).2
      &&& 0x80000000 = 0
  · rw [if_pos hlt]
    have hb := hchar.1 hlt
    have hlog30 : Nat.log2 (clzStep 0xc0000000 2
        (clzStep 0xf0000000 4 (clzStep 0xff000000 8 (clzStep 0xffff0000 16 (0, x))))).2 = 30 :=
      log2_eq_of_bounds _ 30 (by norm_num at h4lo ⊢; exact h4lo) (by norm_num; exact hb)
    omega
  · rw [if_neg hlt]
    have hb : 2 ^ 31 ≤ (clzStep 0xc0000000 2
        (clzStep 0xf0000000 4 (clzStep 0xff000000 8 (clzStep 0xffff0000 16 (0, x))))).2 := by
      by_contra hlt2
      exact hlt (hchar.2 (by omega))
    have hlog31 : Nat.log2 (clzStep 0xc0000000 2
        (clzStep 0xf0000000 4 (clzStep 0xff000000 8 (clzStep 0xffff0000 16 (0, x))))).2 = 31 :=
      log2_eq_of_bounds _ 31 hb (by norm_num; exact h4hi)
    omega

theorem log2_or_eq_log2_max (w h : Nat) (hw : w < 2 ^ 32) (hh : h < 2 ^ 32)
    (hpos : 1 ≤ max w h) :
    Nat.log2 (w ||| h) = Nat.log2 (max w h) := by
  have hmaxne : max w h ≠ 0 := by omega
  have hub : max w h < 2 ^ (Nat.log2 (max w h) + 1) :=
    (Nat.log2_lt hmaxne).1 (Nat.lt_succ_self _)
  have hwlt : w < 2 ^ (Nat.log2 (max w h) + 1) := lt_of_le_of_lt (le_max_left w h) hub
  have hhlt : h < 2 ^ (Nat.log2 (max w h) + 1) := lt_of_le_of_lt (le_max_right w h) hub
  have horlt : w ||| h < 2 ^ (Nat.log2 (max w h) + 1) := Nat.or_lt_two_pow hwlt hhlt
  have hbit_or : (w ||| h).testBit (Nat.log2 (max w h)) = true := by
    rcases max_choice w h with hc | hc
    · have hw0 : w ≠ 0 := by omega
      rw [hc, Nat.testBit_or, testBit_log2_self w hw0]
      simp
    · have hh0 : h ≠ 0 := by omega
      rw [hc, Nat.testBit_or, testBit_log2_self h hh0]
      simp
  have hlow : 2 ^ Nat.log2 (max w h) ≤ w ||| h := two_pow_le_of_testBit _ _ hbit_or
  exact log2_eq_of_bounds _ _ hlow horlt

theorem or_pos_of_max_pos (w h : Nat) (hpos : 1 ≤ max w h) : 0 < w ||| h := by
  rcases max_choice w h with hc | hc
  · have hw0 : w ≠ 0 := by omega
    have hbit : (w ||| h).testBit (Nat.log2 w) = true := by
      rw [Nat.testBit_or, testBit_log2_self w hw0]
      simp
    have := two_pow_le_of_testBit _ _ hbit
    have hp : (0 : Nat) < 2 ^ Nat.log2 w := Nat.pos_pow_of_pos _ (by norm_num)
    omega
  · have hh0 : h ≠ 0 := by omega
    have hbit : (w ||| h).testBit (Nat.log2 h) = true := by
      rw [Nat.testBit_or, testBit_log2_self h hh0]
      simp
    have := two_pow_le_of_testBit _ _ hbit
    have hp : (0 : Nat) < 2 ^ Nat.log2 h := Nat.pos_pow_of_pos _ (by norm_num)
    omega

/-- On 32-bit inputs with a nonzero dimension, the mip count is exactly
`1 + floor(log2(max(width, height)))`. -/
theorem compute_mip_level_count_spec (w h : Nat) (hw : w < 2 ^ 32) (hh : h < 2 ^ 32)
    (hpos : 1 ≤ max w h) :
    compute_mip_level_count w h = 1 + Nat.log2 (max w h) := by
  have horlt : w ||| h < 2 ^ 32 := Nat.or_lt_two_pow hw hh
  have horpos : 0 < w ||| h := or_pos_of_max_pos w h hpos
  have hlog := log2_or_eq_log2_max w h hw hh hpos
  have hsmall : Nat.log2 (w ||| h) < 32 := (Nat.log2_lt (by omega)).2 horlt
  unfold compute_mip_level_count
  rw [countl_zero_spec _ horpos horlt, hlog]
  omega

/-- Claim C1: for all 32-bit width/height with `max(width, height) ≥ 1`,
`compute_mip_level_count` — the code's `32 - countl_zero_(width | height)`
— equals the reference formula `1 + floor(log2(max(width, height)))`, and
the listed concrete values hold: `mip_levels(1,1) = 1`,
`mip_levels(256,256) = 9`, `mip_levels(300,1) = 9`. -/
theorem claim_c1_mip_count_formula :
    (∀ w h : Nat, w < 2 ^ 32 → h < 2 ^ 32 → 1 ≤ max w h →
      compute_mip_level_count w h = 1 + Nat.log2 (max w h)) ∧
    compute_mip_level_count 1 1 = 1 ∧
    compute_mip_level_count 256 256 = 9 ∧
    compute_mip_level_count 300 1 = 9 := by
  refine ⟨fun w h hw hh hpos => compute_mip_level_count_spec w h hw hh hpos,
    by decide, by decide, by decide⟩

/-- Claim C2 counterexample: the claim "mip_levels is ≥ 1 for every pair
and strictly increasing in max(w,h)" is false: at (0,0) the count is 0,
and (2,2) versus (3,3) has a strictly larger max but an equal count. -/
theorem claim_c2_counterexample :
    (¬ ∀ w1 h1 w2 h2 : Nat, 1 ≤ compute_mip_level_count w1 h1 ∧
        (max w1 h1 < max w2 h2 →
          compute_mip_level_count w1 h1 < compute_mip_level_count w2 h2)) ∧
    compute_mip_level_count 0 0 = 0 ∧
    max 2 2 < max 3 3 ∧
    compute_mip_level_count 2 2 = compute_mip_level_count 3 3 := by
  refine ⟨?_, by decide, by decide, by decide⟩
  intro hall
  have hmono := (hall 2 2 3 3).2 (by decide)
  have h22 : compute_mip_level_count 2 2 = 2 := by decide
  have h33 : compute_mip_level_count 3 3 = 2 := by decide
  omega

/-- Claim C2 (amended): on 32-bit inputs the mip count is at least 1
whenever `max(w, h) ≥ 1`, and it is monotone (non-decreasing, not
strictly increasing) in `max(w, h)`. -/
theorem claim_c2_amended (w1 h1 w2 h2 : Nat)
    (hw1 : w1 < 2 ^ 32) (hh1 : h1 < 2 ^ 32) (hw2 : w2 < 2 ^ 32) (hh2 : h2 < 2 ^ 32) :
    (1 ≤ max w1 h1 → 1 ≤ compute_mip_level_count w1 h1) ∧
    (max w1 h1 ≤ max w2 h2 →
      compute_mip_level_count w1 h1 ≤ compute_mip_level_count w2 h2) := by
  constructor
  · intro hpos
    have := compute_mip_level_count_spec w1 h1 hw1 hh1 hpos
    omega
  · intro hle
    rcases Nat.eq_zero_or_pos (max w1 h1) with h0 | hpos
    · have hz : w1 = 0 ∧ h1 = 0 := by
        constructor <;> omega
      obtain ⟨rfl, rfl⟩ := hz
      have hzz : compute_mip_level_count 0 0 = 0 := by decide
      omega
    · have hpos2 : 1 ≤ max w2 h2 := le_trans hpos hle
      have e1 := compute_mip_level_count_spec w1 h1 hw1 hh1 hpos
      have e2 := compute_mip_level_count_spec w2 h2 hw2 hh2 hpos2
      have hmono : Nat.log2 (max w1 h1) ≤ Nat.log2 (max w2 h2) := by
        have hne2 : max w2 h2 ≠ 0 := by omega
        exact (Nat.le_log2 hne2).2 (le_trans ((Nat.le_log2 (by omega)).1 le_rfl) hle)
      omega

theorem claim_c2_amended_witness :
    (1 ≤ max 2 2 → 1 ≤ compute_mip_level_count 2 2) ∧
    (max 2 2 ≤ max 3 3 →
      compute_mip_level_count 2 2 ≤ compute_mip_level_count 3 3) :=
  claim_c2_amended 2 2 3 3 (by norm_num) (by norm_num) (by norm_num) (by norm_num)

/-- Claim C10: at width = height = 0 the mip count is 0 (as
`countl_zero_(0) = 32`), and on every other 32-bit input it is at least
1: the zero-dimensions pair is the only input whose count is not
positive. -/
theorem claim_c10_zero_dimensions :
    countl_zero_ 0 = 32 ∧
    compute_mip_level_count 0 0 = 0 ∧
    (∀ w h : Nat, w < 2 ^ 32 → h < 2 ^ 32 →
      (compute_mip_level_count w h = 0 ↔ w = 0 ∧ h = 0)) ∧
    (∀ w h : Nat, w < 2 ^ 32 → h < 2 ^ 32 → 1 ≤ max w h →
      1 ≤ compute_mip_level_count w h) := by
  refine ⟨by decide, by decide, ?_, ?_⟩
  · intro w h hw hh
    constructor
    · intro h0
      by_contra hnz
      have hpos : 1 ≤ max w h := by
        rcases Nat.eq_zero_or_pos (max w h) with hm | hm
        · exact absurd ⟨by omega, by omega⟩ hnz
        · exact hm
      have := compute_mip_level_count_spec w h hw hh hpos
      omega
    · rintro ⟨rfl, rfl⟩
      decide
  · intro w h hw hh hpos
    have := compute_mip_level_count_spec w h hw hh hpos
    omega

/-! ## Image upload with mip-chain generation (vkimage.cpp)

`load_image_texture2d` records, in order: one whole-range barrier
UNDEFINED → TRANSFER_DST, the base-level copy, a barrier taking level 0 to
TRANSFER_SRC, then for each level `1 ≤ level < mipLevels` a blit followed
by a barrier taking that level to TRANSFER_SRC, and finally one barrier
over the whole mip range TRANSFER_SRC → SHADER_READ_ONLY. The per-axis
extent update in the blit loop is `d >>= 1; if (d == 0) d = 1;`.
-/

inductive ImageLayout where
  | undefined
  | transferDstOptimal
  | transferSrcOptimal
  | shaderReadOnlyOptimal
deriving DecidableEq

/-- An `image_barrier` call as it affects per-mip-level layout state. -/
structure BarrierCmd where
  oldLayout : ImageLayout
  newLayout : ImageLayout
  baseMipLevel : Nat
  levelCount : Nat
deriving DecidableEq

/-- One per-axis size update of the blit loop. -/
def next_mip_dim (d : Nat) : Nat :=
  if d >>> 1 = 0 then 1 else d >>> 1

/-- Extent of one axis at a given mip level, iterating the loop update. -/
def mip_dim (d : Nat) : Nat → Nat
  | 0 => d
  | l + 1 => next_mip_dim (mip_dim d l)

/-- The sequence of layout-affecting barriers `load_image_texture2d`
records for an image with `mipLevels` levels. -/
def upload_barriers (mipLevels : Nat) : List BarrierCmd :=
  ⟨.undefined, .transferDstOptimal, 0, mipLevels⟩ ::
  ⟨.transferDstOptimal, .transferSrcOptimal, 0, 1⟩ ::
  (((List.range' 1 (mipLevels - 1)).map fun level =>
      (⟨.transferDstOptimal, .transferSrcOptimal, level, 1⟩ : BarrierCmd)) ++
    [⟨.transferSrcOptimal, .shaderReadOnlyOptimal, 0, mipLevels⟩])

/-- Applying a barrier to the per-level layout state. It is only valid
when every affected level is in the barrier's old layout. -/
def applyBarrier (b : BarrierCmd) (layouts : List ImageLayout) :
    Option (List ImageLayout) :=
  if b.baseMipLevel + b.levelCount ≤ layouts.length ∧
      ((List.range' b.baseMipLevel b.levelCount).all fun l =>
        layouts.getD l .undefined == b.oldLayout) = true then
    some ((List.range layouts.length).map fun l =>
      if b.baseMipLevel ≤ l ∧ l < b.baseMipLevel + b.levelCount then b.newLayout
      else layouts.getD l .undefined)
  else none

def runBarriers (bs : List BarrierCmd) (layouts : List ImageLayout) :
    Option (List ImageLayout) :=
  List.foldlM (fun st b => applyBarrier b st) layouts bs

/-- Claim C3: a 512×256 upload yields exactly 10 mip levels, the blit
loop's per-axis halving gives level 9 extent 1×1, and running the
recorded barrier sequence (each old layout matching) leaves every level
in SHADER_READ_ONLY layout. -/
theorem claim_c3_upload_512x256 :
    compute_mip_level_count 512 256 = 10 ∧
    mip_dim 512 9 = 1 ∧ mip_dim 256 9 = 1 ∧
    runBarriers (upload_barriers 10) (List.replicate 10 ImageLayout.undefined) =
      some (List.replicate 10 ImageLayout.shaderReadOnlyOptimal) := by
  refine ⟨by decide, by decide, by decide, by decide⟩

/-! ## Physical device selection (vulkan_window.cpp)

`score_device` rejects (score `-1`) on: API version below 1.2, missing
`VK_KHR_swapchain`, no queue family that can present to the surface, no
graphics queue family; otherwise the score is 500 for a discrete GPU,
100 for an integrated GPU, 0 for anything else. `select_device`
enumerates the adapters keeping the first strict improvement over a
running best initialised to `-1`. -/

inductive DeviceType where
  | discreteGpu
  | integratedGpu
  | otherDevice
deriving DecidableEq

/-- The adapter attributes `score_device` consults. -/
structure Adapter where
  apiMajor : Nat
  apiMinor : Nat
  hasSwapchainExt : Bool
  canPresentToSurface : Bool
  hasGraphicsQueueFamily : Bool
  deviceType : DeviceType
deriving DecidableEq

/-- Embedding of `score_device` (the float scores are the exact integers
-1, 0, 100, 500). -/
def score_device (d : Adapter) : Int :=
  if d.apiMajor < 1 ∨ (d.apiMajor = 1 ∧ d.apiMinor < 2) then -1
  else if d.hasSwapchainExt = false then -1
  else if d.canPresentToSurface = false then -1
  else if d.hasGraphicsQueueFamily = false then -1
  else if d.deviceType = DeviceType.discreteGpu then 500
  else if d.deviceType = DeviceType.integratedGpu then 100
  else 0

/-- The enumeration loop of `select_device`, tracking the index of the
current best device; `none` plays the role of `VK_NULL_HANDLE`. -/
def select_device_go : List Adapter → Nat → Int → Option Nat → Option Nat
  | [], _, _, best => best
  | d :: rest, i, bestScore, best =>
    if bestScore < score_device d then
      select_device_go rest (i + 1) (score_device d) (some i)
    else
      select_device_go rest (i + 1) bestScore best

/-- `select_device`: best score starts at -1 and best device at null. -/
def select_device (ds : List Adapter) : Option Nat :=
  select_device_go ds 0 (-1) none

theorem score_device_ge (d : Adapter) : -1 ≤ score_device d := by
  unfold score_device
  split_ifs <;> norm_num

theorem select_go_stays (ds : List Adapter) :
    ∀ (i : Nat) (b : Int) (best : Option Nat),
      (∀ d ∈ ds, score_device d ≤ b) → select_device_go ds i b best = best := by
  induction ds with
  | nil => intro i b best _; rfl
  | cons d rest ih =>
    intro i b best hall
    unfold select_device_go
    rw [if_neg (not_lt.2 (hall d (List.mem_cons_self d rest)))]
    exact ih (i + 1) b best fun d2 hd2 => hall d2 (List.mem_cons_of_mem d hd2)

theorem select_go_found (ds : List Adapter) :
    ∀ (i : Nat) (b : Int) (best : Option Nat),
      (∃ d ∈ ds, b < score_device d) →
      ∃ j, ∃ hj : j < ds.length,
        select_device_go ds i b best = some (i + j) ∧
        b < score_device (ds.get ⟨j, hj⟩) ∧
        (∀ k (hk : k < ds.length),
          score_device (ds.get ⟨k, hk⟩) ≤ score_device (ds.get ⟨j, hj⟩)) ∧
        (∀ k (hk : k < ds.length), k < j →
          score_device (ds.get ⟨k, hk⟩) < score_device (ds.get ⟨j, hj⟩)) := by
  induction ds with
  | nil =>
    intro i b best hex
    simp at hex
  | cons d rest ih =>
    intro i b best hex
    by_cases hd : b < score_device d
    · unfold select_device_go
      rw [if_pos hd]
      by_cases hrest : ∃ d2 ∈ rest, score_device d < score_device d2
      · obtain ⟨j2, hj2, heq, hgt, hmax, hfirst⟩ := ih (i + 1) (score_device d) (some i) hrest
        refine ⟨j2 + 1, Nat.succ_lt_succ hj2, ?_, ?_, ?_, ?_⟩
        · rw [heq]
          congr 1
          omega
        · exact lt_trans hd hgt
        · intro k hk
          cases k with
          | zero => exact le_of_lt hgt
          | succ k2 => exact hmax k2 (Nat.lt_of_succ_lt_succ hk)
        · intro k hk hlt
          cases k with
          | zero => exact hgt
          | succ k2 => exact hfirst k2 (Nat.lt_of_succ_lt_succ hk) (Nat.lt_of_succ_lt_succ hlt)
      · push_neg at hrest
        rw [select_go_stays rest (i + 1) (score_device d) (some i) hrest]
        refine ⟨0, Nat.succ_pos rest.length, by rw [Nat.add_zero], hd, ?_, ?_⟩
        · intro k hk
          cases k with
          | zero => exact le_rfl
          | succ k2 =>
            exact hrest _ (List.get_mem rest _ _)
        · intro k hk hlt
          exact absurd hlt (Nat.not_lt_zero k)
    · unfold select_device_go
      rw [if_neg hd]
      have hex2 : ∃ d2 ∈ rest, b < score_device d2 := by
        obtain ⟨d2, hmem, hgt⟩ := hex
        rcases List.mem_cons.1 hmem with rfl | hmem2
        · exact absurd hgt hd
        · exact ⟨d2, hmem2, hgt⟩
      obtain ⟨j2, hj2, heq, hgt, hmax, hfirst⟩ := ih (i + 1) b best hex2
      have hdle : score_device d ≤ b := not_lt.1 hd
      refine ⟨j2 + 1, Nat.succ_lt_succ hj2, ?_, hgt, ?_, ?_⟩
      · rw [heq]
        congr 1
        omega
      · intro k hk
        cases k with
        | zero => exact le_of_lt (lt_of_le_of_lt hdle hgt)
        | succ k2 => exact hmax k2 (Nat.lt_of_succ_lt_succ hk)
      · intro k hk hlt
        cases k with
        | zero => exact lt_of_le_of_lt hdle hgt
        | succ k2 => exact hfirst k2 (Nat.lt_of_succ_lt_succ hk) (Nat.lt_of_succ_lt_succ hlt)

/-- Claim C4: every adapter failing one of the four requirements scores
the rejection sentinel -1; and when some adapter is not rejected,
`select_device` returns a non-rejected adapter of maximal score, the
earliest-enumerated one among equals. -/
theorem claim_c4_device_selection (ds : List Adapter)
    (hex : ∃ d ∈ ds, score_device d ≠ -1) :
    (∀ d : Adapter,
      (d.apiMajor < 1 ∨ (d.apiMajor = 1 ∧ d.apiMinor < 2)) ∨
        d.hasSwapchainExt = false ∨ d.canPresentToSurface = false ∨
        d.hasGraphicsQueueFamily = false →
      score_device d = -1) ∧
    ∃ j, ∃ hj : j < ds.length,
      select_device ds = some j ∧
      score_device (ds.get ⟨j, hj⟩) ≠ -1 ∧
      (∀ k (hk : k < ds.length),
        score_device (ds.get ⟨k, hk⟩) ≤ score_device (ds.get ⟨j, hj⟩)) ∧
      (∀ k (hk : k < ds.length), k < j →
        score_device (ds.get ⟨k, hk⟩) < score_device (ds.get ⟨j, hj⟩)) := by
  constructor
  · intro d hrej
    unfold score_device
    rcases hrej with h | h | h | h
    · rw [if_pos h]
    · by_cases h1 : d.apiMajor < 1 ∨ (d.apiMajor = 1 ∧ d.apiMinor < 2)
      · rw [if_pos h1]
      · rw [if_neg h1, if_pos h]
    · by_cases h1 : d.apiMajor < 1 ∨ (d.apiMajor = 1 ∧ d.apiMinor < 2)
      · rw [if_pos h1]
      · by_cases h2 : d.hasSwapchainExt = false
        · rw [if_neg h1, if_pos h2]
        · rw [if_neg h1, if_neg h2, if_pos h]
    · by_cases h1 : d.apiMajor < 1 ∨ (d.apiMajor = 1 ∧ d.apiMinor < 2)
      · rw [if_pos h1]
      · by_cases h2 : d.hasSwapchainExt = false
        · rw [if_neg h1, if_pos h2]
        · by_cases h3 : d.canPresentToSurface = false
          · rw [if_neg h1, if_neg h2, if_pos h3]
          · rw [if_neg h1, if_neg h2, if_neg h3, if_pos h]
  · have hex2 : ∃ d ∈ ds, (-1 : Int) < score_device d := by
      obtain ⟨d, hmem, hne⟩ := hex
      exact ⟨d, hmem, lt_of_le_of_ne (score_device_ge d) (Ne.symm hne)⟩
    obtain ⟨j, hj, heq, hgt, hmax, hfirst⟩ := select_go_found ds 0 (-1) none hex2
    refine ⟨j, hj, ?_, (ne_of_lt hgt).symm, hmax, hfirst⟩
    unfold select_device
    rw [heq]
    congr 1
    omega

/-- An adapter rejected for missing a graphics queue family. -/
def rejectedAdapter : Adapter :=
  ⟨1, 3, true, true, false, DeviceType.discreteGpu⟩

/-- An acceptable integrated-GPU adapter. -/
def goodAdapter : Adapter :=
  ⟨1, 3, true, true, true, DeviceType.integratedGpu⟩

theorem claim_c4_witness :
    (∀ d : Adapter,
      (d.apiMajor < 1 ∨ (d.apiMajor = 1 ∧ d.apiMinor < 2)) ∨
        d.hasSwapchainExt = false ∨ d.canPresentToSurface = false ∨
        d.hasGraphicsQueueFamily = false →
      score_device d = -1) ∧
    ∃ j, ∃ hj : j < ([rejectedAdapter, goodAdapter] : List Adapter).length,
      select_device [rejectedAdapter, goodAdapter] = some j ∧
      score_device (([rejectedAdapter, goodAdapter] : List Adapter).get ⟨j, hj⟩) ≠ -1 ∧
      (∀ k (hk : k < ([rejectedAdapter, goodAdapter] : List Adapter).length),
        score_device (([rejectedAdapter, goodAdapter] : List Adapter).get ⟨k, hk⟩) ≤
          score_device (([rejectedAdapter, goodAdapter] : List Adapter).get ⟨j, hj⟩)) ∧
      (∀ k (hk : k < ([rejectedAdapter, goodAdapter] : List Adapter).length), k < j →
        score_device (([rejectedAdapter, goodAdapter] : List Adapter).get ⟨k, hk⟩) <
          score_device (([rejectedAdapter, goodAdapter] : List Adapter).get ⟨j, hj⟩)) :=
  claim_c4_device_selection [rejectedAdapter, goodAdapter] (by decide)

/-! ## Swapchain creation: image count and extent (vulkan_window.cpp) -/

/-- Embedding of the image-count choice in `create_swapchain`:
`imageCount = 2`, raised to `minImageCount + 1` when below it, then
clamped to `maxImageCount` when a nonzero maximum is declared and
exceeded. -/
def image_count (minImageCount maxImageCount : Nat) : Nat :=
  let c1 := if 2 < minImageCount + 1 then minImageCount + 1 else 2
  if 0 < maxImageCount ∧ maxImageCount < c1 then maxImageCount else c1

/-- Claim C5: with no declared maximum the chosen count is
`max 2 (minImageCount + 1)`; with a nonzero maximum it is that value
clamped down to the maximum — so it is at least `minImageCount + 1`
whenever the maximum permits, and in the degenerate case
`maxImageCount ≤ minImageCount` it equals the maximum, falling below
`minImageCount + 1` with no clamp back up. -/
theorem claim_c5_image_count (minImageCount maxImageCount : Nat) :
    (image_count minImageCount 0 = max 2 (minImageCount + 1)) ∧
    (0 < maxImageCount →
      image_count minImageCount maxImageCount =
        min (max 2 (minImageCount + 1)) maxImageCount) ∧
    (0 < maxImageCount → minImageCount + 1 ≤ maxImageCount →
      minImageCount + 1 ≤ image_count minImageCount maxImageCount) ∧
    (maxImageCount = 0 ∨ 2 ≤ maxImageCount →
      2 ≤ image_count minImageCount maxImageCount) ∧
    (0 < maxImageCount → maxImageCount ≤ minImageCount →
      image_count minImageCount maxImageCount = maxImageCount ∧
      image_count minImageCount maxImageCount < minImageCount + 1) := by
  refine ⟨?_, ?_, ?_, ?_, ?_⟩ <;>
    · intros
      unfold image_count
      dsimp only
      try simp only [max_def, min_def]
      split_ifs <;> omega

/-- A GLFW/`std::clamp` style clamp of a framebuffer dimension. -/
def clamp_u32 (v lo hi : Nat) : Nat :=
  if v < lo then lo else if hi < v then hi else v

structure Extent2D where
  width : Nat
  height : Nat
deriving DecidableEq

/-- Embedding of the extent choice in `create_swapchain`: take the
surface's `currentExtent`; when its width is `0xFFFFFFFF` replace it by
the framebuffer size clamped per axis into
`[minImageExtent, maxImageExtent]`. -/
def swap_extent (currentExtent : Extent2D) (fbWidth fbHeight : Nat)
    (minImageExtent maxImageExtent : Extent2D) : Extent2D :=
  if currentExtent.width = 0xFFFFFFFF then
    ⟨clamp_u32 fbWidth minImageExtent.width maxImageExtent.width,
     clamp_u32 fbHeight minImageExtent.height maxImageExtent.height⟩
  else currentExtent

/-- Claim C6: the surface's reported extent is used whenever its width
is not the undefined marker `0xFFFFFFFF`; exactly at that marker the
extent is instead the framebuffer size with each axis independently
clamped into the surface's declared bounds. -/
theorem claim_c6_swap_extent (cur : Extent2D) (fw fh : Nat) (mn mx : Extent2D) :
    (cur.width ≠ 0xFFFFFFFF → swap_extent cur fw fh mn mx = cur) ∧
    (cur.width = 0xFFFFFFFF →
      swap_extent cur fw fh mn mx =
        ⟨clamp_u32 fw mn.width mx.width, clamp_u32 fh mn.height mx.height⟩) ∧
    (cur.width = 0xFFFFFFFF → mn.width ≤ mx.width → mn.height ≤ mx.height →
      mn.width ≤ (swap_extent cur fw fh mn mx).width ∧
      (swap_extent cur fw fh mn mx).width ≤ mx.width ∧
      mn.height ≤ (swap_extent cur fw fh mn mx).height ∧
      (swap_extent cur fw fh mn mx).height ≤ mx.height) := by
  refine ⟨fun hne => ?_, fun he => ?_, fun he h1 h2 => ?_⟩
  · unfold swap_extent
    rw [if_neg hne]
  · unfold swap_extent
    rw [if_pos he]
  · unfold swap_extent
    rw [if_pos he]
    unfold clamp_u32
    dsimp only
    split_ifs <;> omega

/-! ## Swapchain recreation (vulkan_window.cpp, recreate_swapchain)

The embedding threads the outcome of the inner `create_swapchain` call
as an explicit parameter (`none` = the call threw) and records the
driver calls that destroy or create handles in an action log. Driver
handles are plain numbers. -/

structure VulkanWindow where
  swapchain : Nat
  swapchainFormat : Nat
  swapchainExtent : Extent2D
  swapImages : List Nat
  swapViews : List Nat
deriving DecidableEq

structure SwapChanges where
  changedSize : Bool
  changedFormat : Bool
deriving DecidableEq

/-- Driver calls that create or destroy handles during recreation. The
source never destroys a `VkImage` (the driver owns swapchain images);
the constructor exists so this can be stated. -/
inductive VkAction where
  | destroyImageView (view : Nat)
  | destroySwapchainKHR (chain : Nat)
  | destroyImage (image : Nat)
  | createSwapchainKHR (chain : Nat)
deriving DecidableEq

/-- Embedding of `recreate_swapchain`: remember old format/extent/chain,
destroy the per-image views and clear the image and view lists, call
create (outcome passed in); on failure restore the old chain handle into
the window and propagate the error; on success destroy the old chain,
store the new images/views, and report which properties changed. -/
def recreate_swapchain (createResult : Option (Nat × Nat × Extent2D))
    (newImages newViews : List Nat) (w : VulkanWindow) :
    (VulkanWindow × Except Unit SwapChanges) × List VkAction :=
  let oldFormat := w.swapchainFormat
  let oldExtent := w.swapchainExtent
  let oldSwapchain := w.swapchain
  let viewActions := w.swapViews.map VkAction.destroyImageView
  let w1 : VulkanWindow := { w with swapViews := [], swapImages := [] }
  match createResult with
  | none => (({ w1 with swapchain := oldSwapchain }, Except.error ()), viewActions)
  | some (newChain, newFormat, newExtent) =>
    let w2 : VulkanWindow :=
      { w1 with swapchain := newChain, swapchainFormat := newFormat,
                swapchainExtent := newExtent,
                swapImages := newImages, swapViews := newViews }
    let changes : SwapChanges :=
      { changedSize :=
          decide (oldExtent.width ≠ newExtent.width ∨ oldExtent.height ≠ newExtent.height),
        changedFormat := decide (oldFormat ≠ newFormat) }
    ((w2, Except.ok changes),
      viewActions ++
        [VkAction.createSwapchainKHR newChain, VkAction.destroySwapchainKHR oldSwapchain])

/-- Claim C7: on a failed creation the error propagates, the window keeps
the old chain handle, and the log holds only view destructions — no chain
and no image was destroyed; on success the old chain is destroyed as the
last action, strictly after the new chain's creation, with all view
destructions before both, and still no image is ever destroyed. -/
theorem claim_c7_recreate_failure_safety (w : VulkanWindow) (ni nv : List Nat)
    (c f : Nat) (e : Extent2D) :
    ((recreate_swapchain none ni nv w).1.2 = Except.error () ∧
     (recreate_swapchain none ni nv w).1.1.swapchain = w.swapchain ∧
     (recreate_swapchain none ni nv w).2 = w.swapViews.map VkAction.destroyImageView ∧
     (∀ a ∈ (recreate_swapchain none ni nv w).2,
        (∀ ch, a ≠ VkAction.destroySwapchainKHR ch) ∧
        (∀ im, a ≠ VkAction.destroyImage im))) ∧
    ((recreate_swapchain (some (c, f, e)) ni nv w).2 =
       w.swapViews.map VkAction.destroyImageView ++
         [VkAction.createSwapchainKHR c, VkAction.destroySwapchainKHR w.swapchain] ∧
     (∀ a ∈ (recreate_swapchain (some (c, f, e)) ni nv w).2,
        ∀ im, a ≠ VkAction.destroyImage im)) := by
  refine ⟨⟨rfl, rfl, rfl, ?_⟩, rfl, ?_⟩
  · intro a ha
    simp only [recreate_swapchain, List.mem_map] at ha
    obtain ⟨v, _, rfl⟩ := ha
    exact ⟨fun ch => by simp, fun im => by simp⟩
  · intro a ha
    simp only [recreate_swapchain, List.mem_append, List.mem_map,
      List.mem_cons, List.not_mem_nil, or_false] at ha
    rcases ha with ⟨v, _, rfl⟩ | rfl | rfl <;> intro im <;> simp

/-- Claim C8: the reported `SwapChanges` has `changedSize` set exactly
when the new extent differs from the old in width or height, and
`changedFormat` exactly when the format differs; when neither changed
the report is `(false, false)` and the window still holds the newly
created chain with the rebuilt image and view lists. -/
theorem claim_c8_swap_changes (w : VulkanWindow) (ni nv : List Nat)
    (c f : Nat) (e : Extent2D) :
    ((recreate_swapchain (some (c, f, e)) ni nv w).1.2 =
      Except.ok
        { changedSize :=
            decide (w.swapchainExtent.width ≠ e.width ∨
              w.swapchainExtent.height ≠ e.height),
          changedFormat := decide (w.swapchainFormat ≠ f) }) ∧
    (∀ ch : SwapChanges,
      (recreate_swapchain (some (c, f, e)) ni nv w).1.2 = Except.ok ch →
        (ch.changedSize = true ↔
          (w.swapchainExtent.width ≠ e.width ∨ w.swapchainExtent.height ≠ e.height)) ∧
        (ch.changedFormat = true ↔ w.swapchainFormat ≠ f)) ∧
    (w.swapchainFormat = f → w.swapchainExtent = e →
      (recreate_swapchain (some (c, f, e)) ni nv w).1.2 =
        Except.ok { changedSize := false, changedFormat := false } ∧
      (recreate_swapchain (some (c, f, e)) ni nv w).1.1 =
        { swapchain := c, swapchainFormat := f, swapchainExtent := e,
          swapImages := ni, swapViews := nv }) := by
  refine ⟨rfl, ?_, ?_⟩
  · intro ch hch
    simp only [recreate_swapchain, Except.ok.injEq] at hch
    subst hch
    constructor <;> simp
  · intro hf he
    subst hf
    subst he
    constructor
    · simp [recreate_swapchain]
    · rfl

/-! ## Frame acquisition and presentation results (main loop and
present_results)

`vkAcquireNextImageKHR` and `vkQueuePresentKHR` results are modelled by
an inductive covering the codes the source compares against, with every
other code collapsed into `otherResult`. -/

inductive VkResult where
  | success
  | suboptimalKHR
  | errorOutOfDateKHR
  | otherResult (code : Int)
deriving DecidableEq

inductive AcquireOutcome where
  | triggerRecreate
  | fatal
  | proceed
deriving DecidableEq

/-- The main loop's handling of the `vkAcquireNextImageKHR` result:
suboptimal or out-of-date sets the recreation flag and abandons the
frame; any other non-success throws; success proceeds with the frame. -/
def handle_acquire_result (r : VkResult) : AcquireOutcome :=
  if r = VkResult.suboptimalKHR ∨ r = VkResult.errorOutOfDateKHR then
    AcquireOutcome.triggerRecreate
  else if r ≠ VkResult.success then AcquireOutcome.fatal
  else AcquireOutcome.proceed

/-- `present_results`: the recreation flag is passed in and the updated
flag (or a thrown error) is returned. -/
def present_results (r : VkResult) (aNeedToRecreateSwapchain : Bool) :
    Except Unit Bool :=
  if r = VkResult.suboptimalKHR ∨ r = VkResult.errorOutOfDateKHR then
    Except.ok true
  else if r ≠ VkResult.success then Except.error ()
  else Except.ok aNeedToRecreateSwapchain

/-- Claim C9: for acquisition and presentation alike, suboptimal and
out-of-date are not errors and are exactly the codes that set the
swapchain-recreation trigger; every other non-success code is a thrown
error; success neither throws nor triggers recreation. -/
theorem claim_c9_present_acquire (r : VkResult) (b : Bool) :
    (handle_acquire_result r = AcquireOutcome.triggerRecreate ↔
      (r = VkResult.suboptimalKHR ∨ r = VkResult.errorOutOfDateKHR)) ∧
    (handle_acquire_result r = AcquireOutcome.fatal ↔
      (r ≠ VkResult.success ∧ r ≠ VkResult.suboptimalKHR ∧
        r ≠ VkResult.errorOutOfDateKHR)) ∧
    (handle_acquire_result r = AcquireOutcome.proceed ↔ r = VkResult.success) ∧
    (present_results r false = Except.ok true ↔
      (r = VkResult.suboptimalKHR ∨ r = VkResult.errorOutOfDateKHR)) ∧
    (present_results r b = Except.error () ↔
      (r ≠ VkResult.success ∧ r ≠ VkResult.suboptimalKHR ∧
        r ≠ VkResult.errorOutOfDateKHR)) ∧
    (r = VkResult.success → present_results r b = Except.ok b) := by
  cases r <;>
    simp [handle_acquire_result, present_results]
